import Mathlib

/-!
Verification development for the vault-nickname plugin (src/main.ts).

The embedding models the nickname record store of the plugin:
the settings file format (a JSON object), the load/merge/save cycle
(`loadSettings`, `saveSettings`), the default-nickname heuristic
(`getVaultParentFolderName`), the settings-file path computation
(`getSettingsFilePath`), the per-sibling nickname lookup performed by
`onVaultSwitcherClicked`, and the display-name refresh
(`refreshVaultDisplayName`).

The host file system is modelled as an association list from absolute
path strings to file contents.  The JavaScript builtins `JSON.parse` and
`JSON.stringify` are modelled by an executable serializer and a
recursive-descent parser over the JSON grammar; JSON numbers are kept as
their source lexeme because no behaviour of the plugin depends on a
numeric value.
-/

namespace VaultNickname

/-- Runtime JSON values, as produced by the modelled JSON.parse.
Numbers keep their source lexeme. -/
inductive Json where
  | null
  | bool (b : Bool)
  | num (lexeme : String)
  | str (s : String)
  | arr (elems : List Json)
  | obj (members : List (String × Json))
deriving Repr

/-- A JavaScript object: insertion-ordered fields with (by construction)
unique keys. -/
abbrev JsObject : Type := List (String × Json)

/-- Property read on an object: the first field with the given key. -/
def jsGet : List (String × Json) → String → Option Json
  | [], _ => none
  | (k0, v0) :: rest, k => if k0 = k then some v0 else jsGet rest k

/-- Property write on an object: overwrite the first field with the given
key in place, else append the field, matching JavaScript assignment
semantics on plain objects. -/
def jsSet : List (String × Json) → String → Json → List (String × Json)
  | [], k, v => [(k, v)]
  | (k0, v0) :: rest, k, v =>
      if k0 = k then (k0, v) :: rest else (k0, v0) :: jsSet rest k v

/-- The merge `Object.assign(target, src)`: fields of `src` are assigned
onto `target` in order. -/
def objectAssign (target : JsObject) (src : List (String × Json)) : JsObject :=
  src.foldl (fun o kv => jsSet o kv.1 kv.2) target

/-- Decide whether the digits of a JSON number lexeme before any exponent
marker are all zero; this is when the denoted value is zero.  (Exponent
underflow of doubles is not modelled; no plugin behaviour depends on it.) -/
def mantissaAllZero : List Char → Bool
  | [] => true
  | c :: rest =>
      if c = 'e' ∨ c = 'E' then true
      else if (48 ≤ c.toNat ∧ c.toNat ≤ 57) ∧ c ≠ '0' then false
      else mantissaAllZero rest

/-- JavaScript truthiness of a runtime value. -/
def jsTruthy : Json → Bool
  | .null => false
  | .bool b => b
  | .num lexeme => ¬ mantissaAllZero lexeme.data
  | .str s => s ≠ ""
  | .arr _ => true
  | .obj _ => true

/-- Property access `v.nickname` style on an arbitrary runtime value:
defined fields on objects, `undefined` (modelled as `none`) elsewhere. -/
def jsMember : Json → String → Option Json
  | .obj kvs, k => jsGet kvs k
  | _, _ => none

/-- Own enumerable properties of a value, as copied by `Object.assign`
from that value: object fields, array and string index properties, and
nothing for primitives. -/
def assignableProps : Json → List (String × Json)
  | .obj kvs => kvs
  | .arr vs => vs.enum.map (fun iv => (toString iv.1, iv.2))
  | .str s => s.data.enum.map (fun ic => (toString ic.1, Json.str (String.mk [ic.2])))
  | _ => []

/-! ### The modelled JSON.stringify -/

/-- Left brace character, kept as a named constant. -/
def lbrace : Char := Char.ofNat 123

/-- Right brace character, kept as a named constant. -/
def rbrace : Char := Char.ofNat 125

/-- Double quote character. -/
def dquote : Char := '"'

/-- Backslash character. -/
def bslash : Char := '\\'

/-- Lowercase hexadecimal digit for a value below 16, as emitted in the
JSON.stringify control-character escape. -/
def hexDigitChar (n : Nat) : Char :=
  if n < 10 then Char.ofNat (48 + n) else Char.ofNat (87 + n)

/-- Escape one character the way JSON.stringify quotes strings: quote and
backslash get a backslash escape, the common control characters get their
short escapes, the remaining control characters get a `u00XX` escape, and
every other character is emitted literally. -/
def escapeChar (c : Char) : List Char :=
  if c = dquote then [bslash, dquote]
  else if c = bslash then [bslash, bslash]
  else if c = Char.ofNat 8 then [bslash, 'b']
  else if c = Char.ofNat 9 then [bslash, 't']
  else if c = Char.ofNat 10 then [bslash, 'n']
  else if c = Char.ofNat 12 then [bslash, 'f']
  else if c = Char.ofNat 13 then [bslash, 'r']
  else if c.toNat < 32 then
    [bslash, 'u', '0', '0', hexDigitChar (c.toNat / 16), hexDigitChar (c.toNat % 16)]
  else [c]

/-- Escape every character of a string body. -/
def escapeString : List Char → List Char
  | [] => []
  | c :: rest => escapeChar c ++ escapeString rest

/-- Quote a string as a JSON string literal. -/
def quoteString (s : String) : String :=
  String.mk (dquote :: (escapeString s.data ++ [dquote]))

mutual

/-- Model of `JSON.stringify` on a runtime value (no indentation, fields
in insertion order), as used by `saveSettings`. -/
def stringify : Json → String
  | .null => "null"
  | .bool true => "true"
  | .bool false => "false"
  | .num lexeme => lexeme
  | .str s => quoteString s
  | .arr vs => "[" ++ stringifyElems vs ++ "]"
  | .obj kvs => String.mk [lbrace] ++ stringifyMembers kvs ++ String.mk [rbrace]

/-- Comma-separated serialization of array elements. -/
def stringifyElems : List Json → String
  | [] => ""
  | [v] => stringify v
  | v :: rest => stringify v ++ "," ++ stringifyElems rest

/-- Comma-separated serialization of object members. -/
def stringifyMembers : List (String × Json) → String
  | [] => ""
  | [(k, v)] => quoteString k ++ ":" ++ stringify v
  | (k, v) :: rest => quoteString k ++ ":" ++ stringify v ++ "," ++ stringifyMembers rest

end

/-! ### The modelled JSON.parse -/

/-- Decide whether a character is one of the four JSON whitespace
characters. -/
def isJsonWs (c : Char) : Bool :=
  c = ' ' ∨ c = Char.ofNat 9 ∨ c = Char.ofNat 10 ∨ c = Char.ofNat 13

/-- Drop leading JSON whitespace. -/
def skipWs : List Char → List Char
  | [] => []
  | c :: rest => if isJsonWs c then skipWs rest else c :: rest

/-- Decide whether a character is an ASCII digit. -/
def isDigitChar (c : Char) : Bool :=
  48 ≤ c.toNat ∧ c.toNat ≤ 57

/-- Value of a hexadecimal digit character, if it is one. -/
def hexVal (c : Char) : Option Nat :=
  if 48 ≤ c.toNat ∧ c.toNat ≤ 57 then some (c.toNat - 48)
  else if 97 ≤ c.toNat ∧ c.toNat ≤ 102 then some (c.toNat - 87)
  else if 65 ≤ c.toNat ∧ c.toNat ≤ 70 then some (c.toNat - 55)
  else none

/-- Parse the body of a JSON string literal after its opening quote,
returning the decoded characters and the input after the closing quote.
Unescaped control characters are rejected, per the JSON grammar.  (A
`uXXXX` escape in the surrogate range decodes through `Char.ofNat`, which
no plugin behaviour exercises.) -/
def parseStringBody : List Char → Option (List Char × List Char)
  | [] => none
  | c :: rest =>
    if c = dquote then some ([], rest)
    else if c = bslash then
      match rest with
      | [] => none
      | e :: rest2 =>
        if e = dquote then (parseStringBody rest2).map (fun pr => (dquote :: pr.1, pr.2))
        else if e = bslash then (parseStringBody rest2).map (fun pr => (bslash :: pr.1, pr.2))
        else if e = '/' then (parseStringBody rest2).map (fun pr => ('/' :: pr.1, pr.2))
        else if e = 'b' then (parseStringBody rest2).map (fun pr => (Char.ofNat 8 :: pr.1, pr.2))
        else if e = 'f' then (parseStringBody rest2).map (fun pr => (Char.ofNat 12 :: pr.1, pr.2))
        else if e = 'n' then (parseStringBody rest2).map (fun pr => (Char.ofNat 10 :: pr.1, pr.2))
        else if e = 'r' then (parseStringBody rest2).map (fun pr => (Char.ofNat 13 :: pr.1, pr.2))
        else if e = 't' then (parseStringBody rest2).map (fun pr => (Char.ofNat 9 :: pr.1, pr.2))
        else if e = 'u' then
          match rest2 with
          | h1 :: h2 :: h3 :: h4 :: rest3 =>
            match hexVal h1, hexVal h2, hexVal h3, hexVal h4 with
            | some a, some b, some c2, some d =>
              (parseStringBody rest3).map
                (fun pr => (Char.ofNat (4096 * a + 256 * b + 16 * c2 + d) :: pr.1, pr.2))
            | _, _, _, _ => none
          | _ => none
        else none
    else if c.toNat < 32 then none
    else (parseStringBody rest).map (fun pr => (c :: pr.1, pr.2))

/-- Longest prefix of ASCII digits. -/
def takeDigits : List Char → List Char × List Char
  | [] => ([], [])
  | c :: rest =>
    if isDigitChar c then
      let pr := takeDigits rest
      (c :: pr.1, pr.2)
    else ([], c :: rest)

/-- Parse an optional exponent part of a JSON number, appending its
characters to the accumulated lexeme. -/
def parseExpPart (acc : List Char) : List Char → Option (List Char × List Char)
  | [] => some (acc, [])
  | e :: rest =>
    if e = 'e' ∨ e = 'E' then
      match rest with
      | [] => none
      | c :: rest2 =>
        if c = '+' ∨ c = '-' then
          match rest2 with
          | d :: rest3 =>
            if isDigitChar d then
              let pr := takeDigits rest3
              some (acc ++ e :: c :: d :: pr.1, pr.2)
            else none
          | [] => none
        else if isDigitChar c then
          let pr := takeDigits rest2
          some (acc ++ e :: c :: pr.1, pr.2)
        else none
    else some (acc, e :: rest)

/-- Parse the optional fraction part of a JSON number followed by the
optional exponent part. -/
def parseFracExp (acc : List Char) : List Char → Option (List Char × List Char)
  | [] => some (acc, [])
  | c :: rest =>
    if c = '.' then
      match rest with
      | d :: rest2 =>
        if isDigitChar d then
          let pr := takeDigits rest2
          parseExpPart (acc ++ c :: d :: pr.1) pr.2
        else none
      | [] => none
    else parseExpPart acc (c :: rest)

/-- Parse a JSON number at the head of the input, returning its lexeme. -/
def parseNumber (cs : List Char) : Option (List Char × List Char) :=
  match cs with
  | [] => none
  | c :: rest =>
    if c = '-' then
      match rest with
      | d :: rest2 =>
        if d = '0' then parseFracExp [c, d] rest2
        else if isDigitChar d then
          let pr := takeDigits rest2
          parseFracExp (c :: d :: pr.1) pr.2
        else none
      | [] => none
    else if c = '0' then parseFracExp [c] rest
    else if isDigitChar c then
      let pr := takeDigits rest
      parseFracExp (c :: pr.1) pr.2
    else none

mutual

/-- Recursive-descent parser for one JSON value, fuelled to bound the
nesting depth; the fuel is in surplus whenever it exceeds the length of
the remaining input. -/
def parseValue : Nat → List Char → Option (Json × List Char)
  | 0, _ => none
  | Nat.succ fuel, cs =>
    match skipWs cs with
    | [] => none
    | c :: rest =>
      if c = lbrace then
        match skipWs rest with
        | [] => none
        | d :: rest2 =>
          if d = rbrace then some (.obj [], rest2)
          else (parseMembers fuel [] (d :: rest2)).map (fun pr => (Json.obj pr.1, pr.2))
      else if c = '[' then
        match skipWs rest with
        | [] => none
        | d :: rest2 =>
          if d = ']' then some (.arr [], rest2)
          else (parseElements fuel [] (d :: rest2)).map (fun pr => (Json.arr pr.1, pr.2))
      else if c = dquote then
        (parseStringBody rest).map (fun pr => (Json.str (String.mk pr.1), pr.2))
      else if c = 't' then
        match rest with
        | 'r' :: 'u' :: 'e' :: r => some (.bool true, r)
        | _ => none
      else if c = 'f' then
        match rest with
        | 'a' :: 'l' :: 's' :: 'e' :: r => some (.bool false, r)
        | _ => none
      else if c = 'n' then
        match rest with
        | 'u' :: 'l' :: 'l' :: r => some (.null, r)
        | _ => none
      else if c = '-' ∨ isDigitChar c then
        (parseNumber (c :: rest)).map (fun pr => (Json.num (String.mk pr.1), pr.2))
      else none

/-- Parse the members of a JSON object after its opening brace (first
member pending), accumulating them with JavaScript assignment so that a
repeated key keeps its first position with its last value, as JSON.parse
does. -/
def parseMembers :
    Nat → List (String × Json) → List Char → Option (List (String × Json) × List Char)
  | 0, _, _ => none
  | Nat.succ fuel, acc, cs =>
    match cs with
    | [] => none
    | c :: rest =>
      if c = dquote then
        match parseStringBody rest with
        | none => none
        | some (keyChars, rest2) =>
          match skipWs rest2 with
          | [] => none
          | d :: rest3 =>
            if d = ':' then
              match parseValue fuel rest3 with
              | none => none
              | some (v, rest4) =>
                let acc2 := jsSet acc (String.mk keyChars) v
                match skipWs rest4 with
                | [] => none
                | e :: rest5 =>
                  if e = ',' then parseMembers fuel acc2 (skipWs rest5)
                  else if e = rbrace then some (acc2, rest5)
                  else none
            else none
      else none

/-- Parse the elements of a JSON array after its opening bracket (first
element pending). -/
def parseElements : Nat → List Json → List Char → Option (List Json × List Char)
  | 0, _, _ => none
  | Nat.succ fuel, acc, cs =>
    match parseValue fuel cs with
    | none => none
    | some (v, rest) =>
      match skipWs rest with
      | [] => none
      | e :: rest2 =>
        if e = ',' then parseElements fuel (acc ++ [v]) rest2
        else if e = ']' then some (acc ++ [v], rest2)
        else none

end

/-- Model of `JSON.parse`: parse one value and require only trailing
whitespace after it; `none` models the thrown `SyntaxError`. -/
def jsonParse (s : String) : Option Json :=
  match parseValue (s.length + 1) s.data with
  | none => none
  | some (v, rest) => if skipWs rest = [] then some v else none

/-- The serialized settings file content for a record with a single
nickname field, exactly what `saveSettings` writes for such a record. -/
def nickObjString (s : String) : String :=
  stringify (Json.obj [("nickname", Json.str s)])

/-! ### File system model -/

/-- In-memory file system: association list from absolute paths to file
contents, newest write first. -/
abbrev FS : Type := List (String × String)

/-- Content of the file at a path, if one exists. -/
def getFile : FS → String → Option String
  | [], _ => none
  | (p, c) :: rest, q => if p = q then some c else getFile rest q

/-- Model of `fs.writeFileSync`: record the new content for the path. -/
def setFile (fs : FS) (p c : String) : FS := (p, c) :: fs

/-- Model of `fs.existsSync`. -/
def existsSync (fs : FS) (p : String) : Bool := (getFile fs p).isSome

/-- Model of `fs.readFileSync` on an existing file (the store only reads
after a positive `existsSync` check). -/
def readFileSync (fs : FS) (p : String) : String := (getFile fs p).getD ""

/-! ### JavaScript string helpers used by the store -/

/-- Decide whether a character is JavaScript string whitespace: the
ASCII whitespace characters plus the representable Unicode space and
line terminator characters recognized by `trim`. -/
def isJsSpace (c : Char) : Bool :=
  c = ' ' ∨ c = Char.ofNat 9 ∨ c = Char.ofNat 10 ∨ c = Char.ofNat 11 ∨
  c = Char.ofNat 12 ∨ c = Char.ofNat 13 ∨ c = Char.ofNat 160 ∨
  c = Char.ofNat 0x2028 ∨ c = Char.ofNat 0x2029 ∨ c = Char.ofNat 0xFEFF

/-- Drop leading JavaScript whitespace characters. -/
def dropSpace : List Char → List Char
  | [] => []
  | c :: rest => if isJsSpace c then dropSpace rest else c :: rest

/-- Model of `String.prototype.trim`: remove leading and trailing
whitespace. -/
def jsTrim (s : String) : String :=
  String.mk ((dropSpace ((dropSpace s.data).reverse)).reverse)

/-- Split a character list at every occurrence of a separator character;
the result always has one more group than there are separators. -/
def splitChars (sep : Char) : List Char → List (List Char)
  | [] => [[]]
  | c :: rest =>
    if c = sep then [] :: splitChars sep rest
    else
      match splitChars sep rest with
      | [] => [[c]]
      | g :: gs => (c :: g) :: gs

/-- Model of `String.prototype.split` with the one-character separator
string the plugin uses. -/
def stringSplit (sep : Char) (s : String) : List String :=
  (splitChars sep s.data).map String.mk

/-! ### The store functions of src/main.ts -/

/-- Path separator; the embedding fixes the non-Windows branch of the
host platform test in src/main.ts line 32. -/
def PATH_SEPARATOR : String := "/"

/-- The path separator as a character, for the split model. -/
def sepChar : Char := '/'

/-- The fixed vault-local relative path of the settings file
(src/main.ts line 40). -/
def VAULT_LOCAL_SETTINGS_FILE_PATH : String := ".vault-nickname"

/-- The static default settings record (src/main.ts lines 28-30). -/
def DEFAULT_SETTINGS : JsObject := [("nickname", Json.str "My Vault Nickname")]

/-- Modelled from the spec: the host `normalizePath` utility is not part
of this repository; on the already well-formed joined paths the plugin
passes to it, the spec treats the computed record path as exactly the
workspace root joined with the fixed literal, so the model takes it as
the identity. -/
def normalizePath (p : String) : String := p

/-- `getSettingsFilePath` (src/main.ts lines 528-535): the vault base
path joined with the fixed literal. -/
def getSettingsFilePath (basePath : String) : String :=
  basePath ++ PATH_SEPARATOR ++ VAULT_LOCAL_SETTINGS_FILE_PATH

/-- `getVaultParentFolderName` (src/main.ts lines 505-521): the trimmed
second-to-last segment of the base path split at the separator, or the
empty string when the base path is empty, has fewer than two segments,
or the segment is empty or blank. -/
def getVaultParentFolderName (basePath : String) : String :=
  if basePath = "" then ""
  else
    let explodedVaultPath := stringSplit sepChar basePath
    if explodedVaultPath.length < 2 then ""
    else
      let seg := explodedVaultPath.getD (explodedVaultPath.length - 2) ""
      if seg = "" then ""
      else if jsTrim seg = "" then ""
      else jsTrim seg

/-- The personalized default settings computed at the top of
`loadSettings` (src/main.ts lines 452-458): a copy of `DEFAULT_SETTINGS`
whose nickname is overwritten with the parent folder name when that name
is non-empty. -/
def personalizedDefaultSettings (basePath : String) : JsObject :=
  let parentFolderName := getVaultParentFolderName basePath
  if parentFolderName ≠ "" then
    jsSet DEFAULT_SETTINGS "nickname" (Json.str parentFolderName)
  else DEFAULT_SETTINGS

/-- `loadSettings` (src/main.ts lines 447-482): read the settings file if
it exists, parse its content when the content string is truthy, and merge
the parsed fields over the personalized defaults with `Object.assign`.
The `JSON.parse` call sits in no try block, so a parse failure is a
thrown `SyntaxError`, modelled as `Except.error`. -/
def loadSettings (basePath : String) (fs : FS) : Except String JsObject :=
  let settingsFilePath := getSettingsFilePath basePath
  if existsSync fs settingsFilePath then
    let settingsJson := readFileSync fs settingsFilePath
    if settingsJson ≠ "" then
      match jsonParse settingsJson with
      | none => Except.error "SyntaxError: JSON.parse"
      | some v =>
        Except.ok (objectAssign (personalizedDefaultSettings basePath) (assignableProps v))
    else Except.ok (objectAssign (personalizedDefaultSettings basePath) [])
  else Except.ok (objectAssign (personalizedDefaultSettings basePath) [])

/-- `saveSettings` (src/main.ts lines 488-500): serialize the settings
record and write it to the settings file path. -/
def saveSettings (basePath : String) (settings : JsObject) (fs : FS) : FS :=
  let settingsFilePath := getSettingsFilePath basePath
  if settingsFilePath ≠ "" then
    setFile fs settingsFilePath (stringify (Json.obj settings))
  else fs

/-- `saveSettings` with the outcome of the underlying `writeFileSync`
made explicit: when the write fails the thrown error is returned in the
first component and neither the in-memory settings record nor the file
system changes; `saveSettings` itself never reassigns `this.settings`. -/
def saveSettingsWithWriteResult (writeSucceeds : Bool) (basePath : String)
    (settings : JsObject) (fs : FS) : Option String × JsObject × FS :=
  let settingsFilePath := getSettingsFilePath basePath
  if settingsFilePath ≠ "" then
    if writeSucceeds then
      (none, settings, setFile fs settingsFilePath (stringify (Json.obj settings)))
    else (some "EACCES: permission denied", settings, fs)
  else (none, settings, fs)

/-- `refreshVaultDisplayName` (src/main.ts lines 414-421): the displayed
name is the trimmed nickname when the plugin is enabled, the settings
record exists, and the nickname is truthy with a truthy trim; otherwise
the intrinsic vault name.  A truthy non-string nickname would make the
`trim` call throw, modelled as `Except.error`. -/
def refreshVaultDisplayName (isEnabled : Bool) (settings : Option JsObject)
    (vaultName : String) : Except String String :=
  if isEnabled then
    match settings with
    | none => Except.ok vaultName
    | some o =>
      match jsGet o "nickname" with
      | none => Except.ok vaultName
      | some n =>
        if jsTruthy n then
          match n with
          | Json.str s => Except.ok (if jsTrim s ≠ "" then jsTrim s else vaultName)
          | _ => Except.error "TypeError: trim is not a function"
        else Except.ok vaultName
  else Except.ok vaultName

/-- Outcome of one iteration of the vault-switcher loop for one sibling
vault: its menu title is overwritten with a nickname, left alone, or the
iteration throws. -/
inductive LookupOutcome where
  | applied (nickname : String)
  | skipped
  | raised (err : String)
deriving Repr, DecidableEq

/-- The per-sibling nickname lookup inside `onVaultSwitcherClicked`
(src/main.ts lines 245-271): compute the sibling settings path, skip the
vault when no file exists, read and parse the file, and apply the stored
nickname to the menu item when the parsed record and its nickname are
truthy and the trimmed nickname is truthy.  The `readFileSync` call uses
no encoding, so it yields a Buffer, which is truthy even when empty and
makes the emptiness guard dead; `JSON.parse` on unparseable content
throws, there being no try block.  The applied nickname is taken from the
record without trimming. -/
def onVaultSwitcherLookup (fs : FS) (vaultPath : String) : LookupOutcome :=
  let vaultPluginSettingsFilePath :=
    normalizePath (vaultPath ++ PATH_SEPARATOR ++ VAULT_LOCAL_SETTINGS_FILE_PATH)
  if existsSync fs vaultPluginSettingsFilePath then
    let vaultPluginSettingsJson := readFileSync fs vaultPluginSettingsFilePath
    match jsonParse vaultPluginSettingsJson with
    | none => LookupOutcome.raised "SyntaxError: JSON.parse"
    | some v =>
      if jsTruthy v then
        match jsMember v "nickname" with
        | none => LookupOutcome.skipped
        | some n =>
          if jsTruthy n then
            match n with
            | Json.str s =>
              if jsTrim s ≠ "" then LookupOutcome.applied s else LookupOutcome.skipped
            | _ => LookupOutcome.raised "TypeError: trim is not a function"
          else LookupOutcome.skipped
      else LookupOutcome.skipped
  else LookupOutcome.skipped

/-! ### Round-trip of the string escaping through the parser -/

theorem hexVal_hexDigitChar (n : Nat) (h : n < 16) : hexVal (hexDigitChar n) = some n := by
  interval_cases n <;> decide

theorem psb_close (t : List Char) : parseStringBody (dquote :: t) = some ([], t) := by
  rw [parseStringBody.eq_def]; simp [dquote]

theorem psb_escq (t : List Char) :
    parseStringBody (bslash :: dquote :: t) =
      (parseStringBody t).map (fun pr => (dquote :: pr.1, pr.2)) := by
  rw [parseStringBody.eq_def]; simp [bslash, dquote]

theorem psb_escb (t : List Char) :
    parseStringBody (bslash :: bslash :: t) =
      (parseStringBody t).map (fun pr => (bslash :: pr.1, pr.2)) := by
  rw [parseStringBody.eq_def]; simp [bslash, dquote]

theorem psb_esc8 (t : List Char) :
    parseStringBody (bslash :: 'b' :: t) =
      (parseStringBody t).map (fun pr => (Char.ofNat 8 :: pr.1, pr.2)) := by
  rw [parseStringBody.eq_def]; simp [bslash, dquote]

theorem psb_esc9 (t : List Char) :
    parseStringBody (bslash :: 't' :: t) =
      (parseStringBody t).map (fun pr => (Char.ofNat 9 :: pr.1, pr.2)) := by
  rw [parseStringBody.eq_def]; simp [bslash, dquote]

theorem psb_esc10 (t : List Char) :
    parseStringBody (bslash :: 'n' :: t) =
      (parseStringBody t).map (fun pr => (Char.ofNat 10 :: pr.1, pr.2)) := by
  rw [parseStringBody.eq_def]; simp [bslash, dquote]

theorem psb_esc12 (t : List Char) :
    parseStringBody (bslash :: 'f' :: t) =
      (parseStringBody t).map (fun pr => (Char.ofNat 12 :: pr.1, pr.2)) := by
  rw [parseStringBody.eq_def]; simp [bslash, dquote]

theorem psb_esc13 (t : List Char) :
    parseStringBody (bslash :: 'r' :: t) =
      (parseStringBody t).map (fun pr => (Char.ofNat 13 :: pr.1, pr.2)) := by
  rw [parseStringBody.eq_def]; simp [bslash, dquote]

theorem psb_escu00 (x y : Char) (a b : Nat) (t : List Char)
    (hx : hexVal x = some a) (hy : hexVal y = some b) :
    parseStringBody (bslash :: 'u' :: '0' :: '0' :: x :: y :: t) =
      (parseStringBody t).map (fun pr => (Char.ofNat (16 * a + b) :: pr.1, pr.2)) := by
  have h0 : hexVal '0' = some 0 := by decide
  rw [parseStringBody.eq_def]
  simp [h0, hx, hy, bslash, dquote]

theorem psb_lit (c : Char) (t : List Char) (h1 : c ≠ dquote) (h2 : c ≠ bslash)
    (h3 : ¬ c.toNat < 32) :
    parseStringBody (c :: t) =
      (parseStringBody t).map (fun pr => (c :: pr.1, pr.2)) := by
  rw [parseStringBody.eq_def]
  simp [h1, h2, h3]

/-- Parsing a string body recovers exactly the characters that were
escaped into it, leaving the input after the closing quote untouched. -/
theorem parseStringBody_escapeString (s : List Char) (rest : List Char) :
    parseStringBody (escapeString s ++ dquote :: rest) = some (s, rest) := by
  induction s with
  | nil => simpa [escapeString] using psb_close rest
  | cons c s ih =>
    show parseStringBody ((escapeChar c ++ escapeString s) ++ dquote :: rest) = _
    rw [List.append_assoc]
    unfold escapeChar
    split_ifs with h1 h2 h3 h4 h5 h6 h7 h8
    · subst h1; simp [psb_escq, ih]
    · subst h2; simp [psb_escb, ih]
    · subst h3; simp [psb_esc8, ih]
    · subst h4; simp [psb_esc9, ih]
    · subst h5; simp [psb_esc10, ih]
    · subst h6; simp [psb_esc12, ih]
    · subst h7; simp [psb_esc13, ih]
    · have hv1 : hexVal (hexDigitChar (c.toNat / 16)) = some (c.toNat / 16) :=
        hexVal_hexDigitChar _ (by omega)
      have hv2 : hexVal (hexDigitChar (c.toNat % 16)) = some (c.toNat % 16) :=
        hexVal_hexDigitChar _ (Nat.mod_lt _ (by norm_num))
      rw [List.cons_append, List.cons_append, List.cons_append, List.cons_append,
        List.cons_append, List.cons_append, List.nil_append]
      rw [psb_escu00 _ _ _ _ _ hv1 hv2, ih]
      rw [Nat.div_add_mod, Char.ofNat_toNat]
      rfl
    · rw [List.cons_append, List.nil_append, psb_lit c _ h1 h2 h8, ih]
      rfl

/-! ### Parsing back a serialized nickname record -/

theorem nickObj_data (s : String) :
    (nickObjString s).data =
      lbrace :: dquote ::
        (escapeString "nickname".data ++
          (dquote :: ':' :: dquote :: (escapeString s.data ++ (dquote :: [rbrace])))) := by
  show (String.mk [lbrace] ++ (quoteString "nickname" ++ ":" ++ quoteString s)
      ++ String.mk [rbrace]).data = _
  simp [quoteString, String.data_append]

theorem skipWs_cons (c : Char) (t : List Char) (h : isJsonWs c = false) :
    skipWs (c :: t) = c :: t := by
  rw [skipWs.eq_def]; simp [h]

theorem parseValue_str (f : Nat) (s : List Char) (rest : List Char) :
    parseValue (Nat.succ f) (dquote :: (escapeString s ++ (dquote :: rest))) =
      some (Json.str (String.mk s), rest) := by
  have e1 : ¬ dquote = lbrace := by decide
  have e2 : ¬ dquote = '[' := by decide
  have hws : isJsonWs dquote = false := by decide
  rw [parseValue.eq_def]
  simp [skipWs_cons _ _ hws, e1, e2, parseStringBody_escapeString]

theorem parseMembers_nick (f : Nat) (s : String) :
    parseMembers (Nat.succ (Nat.succ f)) []
      (dquote :: (escapeString "nickname".data ++
        (dquote :: ':' :: dquote :: (escapeString s.data ++ (dquote :: [rbrace]))))) =
      some ([("nickname", Json.str s)], []) := by
  have hkey := parseStringBody_escapeString "nickname".data
    (':' :: dquote :: (escapeString s.data ++ (dquote :: [rbrace])))
  have hcolon : isJsonWs ':' = false := by decide
  have hrb : isJsonWs rbrace = false := by decide
  have e4 : ¬ rbrace = ',' := by decide
  have hmk : String.mk "nickname".data = "nickname" := rfl
  rw [parseMembers.eq_def]
  simp only [hkey]
  simp [hkey, skipWs_cons _ _ hcolon, skipWs_cons _ _ hrb,
    parseValue_str f s.data [rbrace], e4, hmk, jsSet]

theorem parseValue_nickObj (f : Nat) (s : String) :
    parseValue (f + 3) ((nickObjString s).data) =
      some (Json.obj [("nickname", Json.str s)], []) := by
  have e1 : ¬ dquote = rbrace := by decide
  have hwsl : isJsonWs lbrace = false := by decide
  have hwsq : isJsonWs dquote = false := by decide
  rw [nickObj_data]
  show parseValue (Nat.succ (Nat.succ (Nat.succ f))) _ = _
  rw [parseValue.eq_def]
  simp [skipWs_cons _ _ hwsl, skipWs_cons _ _ hwsq, e1, parseMembers_nick f s]

/-- Round trip: the modelled JSON.parse recovers a serialized nickname
record exactly, whatever characters the nickname contains. -/
theorem jsonParse_nickObj (s : String) :
    jsonParse (nickObjString s) = some (Json.obj [("nickname", Json.str s)]) := by
  have hlen : (nickObjString s).length = 15 + (escapeString s.data).length := by
    have hd : (nickObjString s).length = (nickObjString s).data.length := rfl
    have h8 : (escapeString ['n', 'i', 'c', 'k', 'n', 'a', 'm', 'e']).length = 8 := by decide
    rw [hd, nickObj_data]
    simp [List.length_append, h8]
    omega
  have h3 : (nickObjString s).length + 1 = ((nickObjString s).length - 2) + 3 := by omega
  unfold jsonParse
  rw [h3, parseValue_nickObj]
  simp [skipWs]

/-! ### Store lemmas -/

theorem getFile_setFile_self (fs : FS) (p c : String) :
    getFile (setFile fs p c) p = some c := by
  simp [getFile, setFile]

theorem getSettingsFilePath_ne_empty (bp : String) : getSettingsFilePath bp ≠ "" := by
  intro h
  have hlen := congrArg String.length h
  rw [getSettingsFilePath, String.length_append, String.length_append] at hlen
  have h1 : PATH_SEPARATOR.length = 1 := rfl
  have h2 : VAULT_LOCAL_SETTINGS_FILE_PATH.length = 15 := rfl
  have h3 : ("" : String).length = 0 := rfl
  omega

theorem loadSettings_of_file (bp : String) (fs : FS) (c : String)
    (h : getFile fs (getSettingsFilePath bp) = some c) (hne : c ≠ "") :
    loadSettings bp fs =
      match jsonParse c with
      | none => Except.error "SyntaxError: JSON.parse"
      | some v =>
        Except.ok (objectAssign (personalizedDefaultSettings bp) (assignableProps v)) := by
  unfold loadSettings
  simp [existsSync, readFileSync, h, hne]

theorem loadSettings_no_file (bp : String) (fs : FS)
    (h : getFile fs (getSettingsFilePath bp) = none) :
    loadSettings bp fs = Except.ok (personalizedDefaultSettings bp) := by
  unfold loadSettings
  simp [existsSync, h, objectAssign]

theorem loadSettings_empty_file (bp : String) (fs : FS)
    (h : getFile fs (getSettingsFilePath bp) = some "") :
    loadSettings bp fs = Except.ok (personalizedDefaultSettings bp) := by
  unfold loadSettings
  simp [existsSync, readFileSync, h, objectAssign]

theorem personalizedDefaultSettings_shape (bp : String) :
    ∃ d, personalizedDefaultSettings bp = [("nickname", Json.str d)] := by
  unfold personalizedDefaultSettings DEFAULT_SETTINGS
  dsimp only
  split_ifs with h
  · exact ⟨getVaultParentFolderName bp, by simp [jsSet]⟩
  · exact ⟨"My Vault Nickname", rfl⟩

theorem saveSettings_getFile (bp : String) (settings : JsObject) (fs : FS) :
    getFile (saveSettings bp settings fs) (getSettingsFilePath bp) =
      some (stringify (Json.obj settings)) := by
  unfold saveSettings
  rw [if_pos (getSettingsFilePath_ne_empty bp)]
  exact getFile_setFile_self _ _ _

theorem nickObjString_ne_empty (s : String) : nickObjString s ≠ "" := by
  intro h
  have hlen := congrArg String.length h
  have hd : (nickObjString s).length = (nickObjString s).data.length := rfl
  have h8 : (escapeString ['n', 'i', 'c', 'k', 'n', 'a', 'm', 'e']).length = 8 := by decide
  rw [hd, nickObj_data] at hlen
  simp [List.length_append, h8] at hlen

/-- Saving a record with one nickname field and loading it back yields
exactly that record: the parsed file overrides the personalized default. -/
theorem save_load_nickname (bp : String) (fs : FS) (s : String) :
    loadSettings bp (saveSettings bp [("nickname", Json.str s)] fs) =
      Except.ok [("nickname", Json.str s)] := by
  have hfile := saveSettings_getFile bp [("nickname", Json.str s)] fs
  rw [loadSettings_of_file bp _ _ hfile (nickObjString_ne_empty s)]
  rw [show stringify (Json.obj [("nickname", Json.str s)]) = nickObjString s from rfl,
    jsonParse_nickObj]
  obtain ⟨d, hd⟩ := personalizedDefaultSettings_shape bp
  simp [hd, assignableProps, objectAssign, jsSet]

/-! ### Object merge lemmas and the distinct-keys parser invariant -/

theorem jsGet_jsSet (o : JsObject) (k k2 : String) (v : Json) :
    jsGet (jsSet o k v) k2 = if k = k2 then some v else jsGet o k2 := by
  induction o with
  | nil => simp [jsSet, jsGet]
  | cons kv rest ih =>
    obtain ⟨k0, v0⟩ := kv
    by_cases h : k0 = k
    · subst h
      simp [jsSet, jsGet]
      split_ifs with h1 <;> simp_all [jsGet]
    · simp [jsSet, h, jsGet, ih]
      split_ifs with h1 h2 <;> simp_all

theorem jsGet_none_iff (o : JsObject) (k : String) :
    jsGet o k = none ↔ k ∉ o.map Prod.fst := by
  induction o with
  | nil => simp [jsGet]
  | cons kv rest ih =>
    obtain ⟨k0, v0⟩ := kv
    by_cases h : k0 = k
    · subst h; simp [jsGet]
    · simp [jsGet, h, ih]
      exact fun _ he => h he.symm

theorem jsGet_mem_of_some (o : JsObject) (k : String) (v : Json)
    (h : jsGet o k = some v) : k ∈ o.map Prod.fst := by
  by_contra hmem
  rw [← jsGet_none_iff] at hmem
  simp [h] at hmem

theorem keys_jsSet (o : JsObject) (k : String) (v : Json) :
    (jsSet o k v).map Prod.fst =
      if k ∈ o.map Prod.fst then o.map Prod.fst else o.map Prod.fst ++ [k] := by
  induction o with
  | nil => simp [jsSet]
  | cons kv rest ih =>
    obtain ⟨k0, v0⟩ := kv
    by_cases h : k0 = k
    · subst h; simp [jsSet]
    · simp [jsSet, h, ih]
      split_ifs with h1 h2 <;> simp_all [eq_comm]

theorem nodupKeys_jsSet (o : JsObject) (k : String) (v : Json)
    (h : (o.map Prod.fst).Nodup) : ((jsSet o k v).map Prod.fst).Nodup := by
  rw [keys_jsSet]
  split_ifs with hmem
  · exact h
  · simp [List.nodup_append, h, hmem]

theorem jsGet_objectAssign (t : JsObject) (src : JsObject) (k : String)
    (h : (src.map Prod.fst).Nodup) :
    jsGet (objectAssign t src) k =
      match jsGet src k with
      | some v => some v
      | none => jsGet t k := by
  induction src generalizing t with
  | nil => simp [objectAssign, jsGet]
  | cons kv rest ih =>
    obtain ⟨k0, v0⟩ := kv
    have hrest : (rest.map Prod.fst).Nodup := (List.nodup_cons.mp (by simpa using h)).2
    have hk0 : k0 ∉ rest.map Prod.fst := (List.nodup_cons.mp (by simpa using h)).1
    show jsGet (objectAssign (jsSet t k0 v0) rest) k = _
    rw [ih _ hrest]
    by_cases hkk : k0 = k
    · subst hkk
      have : jsGet rest k0 = none := (jsGet_none_iff _ _).mpr hk0
      simp [this, jsGet, jsGet_jsSet]
    · cases hg : jsGet rest k with
      | some v => simp [hg, jsGet, hkk]
      | none => simp [hg, jsGet, hkk, jsGet_jsSet]


theorem parseMembers_nodupKeys :
    ∀ (f : Nat) (acc : List (String × Json)) (cs : List Char)
      (res : List (String × Json)) (rest : List Char),
      parseMembers f acc cs = some (res, rest) →
      (acc.map Prod.fst).Nodup → (res.map Prod.fst).Nodup := by
  intro f
  induction f using Nat.strong_induction_on with
  | _ f ih =>
    intro acc cs res rest h hacc
    rw [parseMembers.eq_def] at h
    repeat' split at h
    all_goals (try exact Option.noConfusion h)
    all_goals
      first
      | exact ih _ (by omega) _ _ _ _ h (nodupKeys_jsSet _ _ _ hacc)
      | (simp only [Option.some.injEq, Prod.mk.injEq] at h
         obtain ⟨h1, h2⟩ := h
         subst h1
         exact nodupKeys_jsSet _ _ _ hacc)


theorem parseValue_obj_nodupKeys (f : Nat) (cs : List Char)
    (kvs : List (String × Json)) (rest : List Char)
    (h : parseValue f cs = some (Json.obj kvs, rest)) :
    (kvs.map Prod.fst).Nodup := by
  rw [parseValue.eq_def] at h
  repeat' split at h
  all_goals (try exact Option.noConfusion h)
  all_goals
    first
    | (injection h with h1
       injection h1 with h2 h3
       first
       | exact Json.noConfusion h2
       | (injection h2 with h4
          subst h4
          simp))
    | (rw [Option.map_eq_some'] at h
       obtain ⟨pr, hpr, hmk⟩ := h
       injection hmk with hA hB
       first
       | exact Json.noConfusion hA
       | (injection hA with hA2
          subst hA2
          exact parseMembers_nodupKeys _ _ _ _ _ hpr (by simp)))

theorem jsonParse_obj_nodupKeys (c : String) (kvs : List (String × Json))
    (h : jsonParse c = some (Json.obj kvs)) : (kvs.map Prod.fst).Nodup := by
  unfold jsonParse at h
  split at h
  · exact Option.noConfusion h
  case _ v rest hv =>
    split at h
    · injection h with h1
      subst h1
      exact parseValue_obj_nodupKeys _ _ _ _ hv
    · exact Option.noConfusion h


theorem jsTrim_empty : jsTrim "" = "" := rfl

theorem gvpfn_spec (bp : String) :
    getVaultParentFolderName bp =
      if 2 ≤ (stringSplit sepChar bp).length ∧
          jsTrim ((stringSplit sepChar bp).getD ((stringSplit sepChar bp).length - 2) "") ≠ ""
      then jsTrim ((stringSplit sepChar bp).getD ((stringSplit sepChar bp).length - 2) "")
      else "" := by
  unfold getVaultParentFolderName
  by_cases hbp : bp = ""
  · subst hbp
    have hsplit : stringSplit sepChar "" = [""] := rfl
    rw [if_pos rfl, hsplit]
    norm_num [jsTrim_empty]
  · rw [if_neg hbp]
    show (if (stringSplit sepChar bp).length < 2 then ""
      else if (stringSplit sepChar bp).getD ((stringSplit sepChar bp).length - 2) "" = "" then ""
      else if jsTrim ((stringSplit sepChar bp).getD ((stringSplit sepChar bp).length - 2) "") = ""
        then ""
      else jsTrim ((stringSplit sepChar bp).getD ((stringSplit sepChar bp).length - 2) "")) = _
    by_cases hlen : (stringSplit sepChar bp).length < 2
    · rw [if_pos hlen, if_neg (fun hc => by omega)]
    · rw [if_neg hlen]
      by_cases hseg : (stringSplit sepChar bp).getD ((stringSplit sepChar bp).length - 2) "" = ""
      · rw [if_pos hseg, if_neg (fun hc => hc.2 (by rw [hseg]; rfl))]
      · rw [if_neg hseg]
        by_cases htrim :
          jsTrim ((stringSplit sepChar bp).getD ((stringSplit sepChar bp).length - 2) "") = ""
        · rw [if_pos htrim, if_neg (fun hc => hc.2 htrim)]
        · rw [if_neg htrim, if_pos ⟨by omega, htrim⟩]


/-- Claim C4: with no record file, load returns the trimmed parent
segment as nickname when it exists and is non-blank, else the static
placeholder. -/
theorem claim4_load_default_fallback (bp : String) (fs : FS)
    (h : getFile fs (getSettingsFilePath bp) = none) :
    (2 ≤ (stringSplit sepChar bp).length →
      jsTrim ((stringSplit sepChar bp).getD ((stringSplit sepChar bp).length - 2) "") ≠ "" →
      loadSettings bp fs =
        Except.ok [("nickname",
          Json.str (jsTrim ((stringSplit sepChar bp).getD
            ((stringSplit sepChar bp).length - 2) "")))]) ∧
    ((stringSplit sepChar bp).length < 2 ∨
      jsTrim ((stringSplit sepChar bp).getD ((stringSplit sepChar bp).length - 2) "") = "" →
      loadSettings bp fs = Except.ok [("nickname", Json.str "My Vault Nickname")]) := by
  rw [loadSettings_no_file bp fs h]
  constructor
  · intro hlen htrim
    have hg : getVaultParentFolderName bp =
        jsTrim ((stringSplit sepChar bp).getD ((stringSplit sepChar bp).length - 2) "") := by
      rw [gvpfn_spec]; exact if_pos ⟨hlen, htrim⟩
    unfold personalizedDefaultSettings DEFAULT_SETTINGS
    rw [hg, if_pos htrim]
    simp [jsSet]
  · intro hcase
    have hg : getVaultParentFolderName bp = "" := by
      rw [gvpfn_spec]
      rcases hcase with hlen | htrim
      · exact if_neg (fun hc => by omega)
      · exact if_neg (fun hc => hc.2 htrim)
    unfold personalizedDefaultSettings DEFAULT_SETTINGS
    rw [hg]
    simp

/-- Claim C4 witness at the concrete inputs from the claim. -/
theorem claim4_witness :
    loadSettings "/home/alice/projects/notes" [] = Except.ok [("nickname", Json.str "projects")] ∧
    loadSettings "/notes" [] = Except.ok [("nickname", Json.str "My Vault Nickname")] := by
  constructor
  · have h := (claim4_load_default_fallback "/home/alice/projects/notes" [] rfl).1
      (by decide) (by decide)
    exact h
  · exact (claim4_load_default_fallback "/notes" [] rfl).2 (by right; decide)


/-- Claim C10: an existing but empty record file makes load skip parsing
and return the computed default record, exactly as when no file exists. -/
theorem claim10_empty_file_default (bp : String) (fs : FS)
    (h : getFile fs (getSettingsFilePath bp) = some "") :
    loadSettings bp fs = Except.ok (personalizedDefaultSettings bp) ∧
    (∀ fs2 : FS, getFile fs2 (getSettingsFilePath bp) = none →
      loadSettings bp fs = loadSettings bp fs2) := by
  refine ⟨loadSettings_empty_file bp fs h, fun fs2 h2 => ?_⟩
  rw [loadSettings_empty_file bp fs h, loadSettings_no_file bp fs2 h2]

/-- Claim C10 witness: a zero-byte record file at a concrete root. -/
theorem claim10_witness :
    loadSettings "/a/b" [("/a/b/.vault-nickname", "")] =
      Except.ok (personalizedDefaultSettings "/a/b") ∧
    loadSettings "/a/b" [("/a/b/.vault-nickname", "")] = loadSettings "/a/b" [] :=
  ⟨(claim10_empty_file_default "/a/b" [("/a/b/.vault-nickname", "")] rfl).1,
   (claim10_empty_file_default "/a/b" [("/a/b/.vault-nickname", "")] rfl).2 [] rfl⟩

/-- Claim C1 (amended): when the record file exists with non-empty
content that is not valid JSON, load raises the parse error to its
caller instead of returning the default record. -/
theorem claim1_load_invalid_json_raises (bp : String) (fs : FS) (c : String)
    (h1 : getFile fs (getSettingsFilePath bp) = some c) (h2 : c ≠ "")
    (h3 : jsonParse c = none) :
    loadSettings bp fs = Except.error "SyntaxError: JSON.parse" := by
  rw [loadSettings_of_file bp fs c h1 h2, h3]

/-- Claim C1 counterexample: a record file holding bytes that are not
valid JSON makes load return the thrown parse error, not the default
record. -/
theorem claim1_counterexample :
    loadSettings "/home/user/vault" [("/home/user/vault/.vault-nickname", "not json")] =
      Except.error "SyntaxError: JSON.parse" := rfl

/-- Claim C1 witness for the amended theorem at a concrete input. -/
theorem claim1_witness :
    loadSettings "/a/b" [("/a/b/.vault-nickname", "oops")] =
      Except.error "SyntaxError: JSON.parse" :=
  claim1_load_invalid_json_raises "/a/b" [("/a/b/.vault-nickname", "oops")] "oops"
    rfl (by decide) rfl

/-- Claim C6: the displayed name falls back to the intrinsic vault name
when the stored nickname is blank, and is the trimmed nickname when it
is non-blank. -/
theorem claim6_display_name (vaultName s : String) :
    (jsTrim s = "" →
      refreshVaultDisplayName true (some [("nickname", Json.str s)]) vaultName =
        Except.ok vaultName) ∧
    (jsTrim s ≠ "" →
      refreshVaultDisplayName true (some [("nickname", Json.str s)]) vaultName =
        Except.ok (jsTrim s)) := by
  constructor
  · intro htrim
    unfold refreshVaultDisplayName
    by_cases hs : s = ""
    · subst hs; simp [jsGet, jsTruthy]
    · simp [jsGet, jsTruthy, hs, htrim]
  · intro htrim
    have hs : s ≠ "" := by
      intro hs; exact htrim (by rw [hs]; rfl)
    unfold refreshVaultDisplayName
    simp [jsGet, jsTruthy, hs, htrim]

/-- Claim C6 witness: a whitespace-only nickname falls back to the
intrinsic name, a padded one is displayed trimmed. -/
theorem claim6_witness :
    refreshVaultDisplayName true (some [("nickname", Json.str "   ")]) "Vault" =
      Except.ok "Vault" ∧
    refreshVaultDisplayName true (some [("nickname", Json.str " My Notes ")]) "Vault" =
      Except.ok "My Notes" :=
  ⟨(claim6_display_name "Vault" "   ").1 (by decide),
   (claim6_display_name "Vault" " My Notes ").2 (by decide)⟩

/-- Claim C7: saving the same record twice writes the identical
serialized content both times. -/
theorem claim7_idempotent_save (bp : String) (settings : JsObject) (fs : FS) :
    getFile (saveSettings bp settings fs) (getSettingsFilePath bp) =
      some (stringify (Json.obj settings)) ∧
    getFile (saveSettings bp settings (saveSettings bp settings fs)) (getSettingsFilePath bp) =
      some (stringify (Json.obj settings)) :=
  ⟨saveSettings_getFile bp settings fs,
   saveSettings_getFile bp settings (saveSettings bp settings fs)⟩

/-- Claim C9: a failing write surfaces the error to the caller of save
while the in-memory settings record and the file system are unchanged;
a succeeding write stores the serialized record. -/
theorem claim9_write_failure (bp : String) (settings : JsObject) (fs : FS) :
    saveSettingsWithWriteResult false bp settings fs =
      (some "EACCES: permission denied", settings, fs) ∧
    saveSettingsWithWriteResult true bp settings fs =
      (none, settings,
        setFile fs (getSettingsFilePath bp) (stringify (Json.obj settings))) := by
  unfold saveSettingsWithWriteResult
  rw [if_pos (getSettingsFilePath_ne_empty bp), if_pos (getSettingsFilePath_ne_empty bp)]
  exact ⟨rfl, rfl⟩


/-- Claim C2: saving a record with any nickname string and loading it
back yields a record whose nickname equals the saved one. -/
theorem claim2_save_load_round_trip (bp : String) (fs : FS) (s : String) :
    ∃ r, loadSettings bp (saveSettings bp [("nickname", Json.str s)] fs) = Except.ok r ∧
      jsGet r "nickname" = some (Json.str s) :=
  ⟨[("nickname", Json.str s)], save_load_nickname bp fs s, by simp [jsGet]⟩

/-- Claim C3: after saving the nickname record under workspace root B,
the sibling lookup of B (from any installation, whatever root A it runs
against) returns that nickname; both operations address the file at the
fixed literal joined under B. -/
theorem claim3_cross_workspace_discovery (A B : String) (fs : FS) :
    onVaultSwitcherLookup (saveSettings B [("nickname", Json.str "Team B")] fs) B =
      LookupOutcome.applied "Team B" ∧
    getSettingsFilePath B = B ++ "/" ++ ".vault-nickname" ∧
    normalizePath (B ++ PATH_SEPARATOR ++ VAULT_LOCAL_SETTINGS_FILE_PATH) =
      B ++ "/" ++ ".vault-nickname" ∧
    getSettingsFilePath A = A ++ "/" ++ ".vault-nickname" := by
  refine ⟨?_, rfl, rfl, rfl⟩
  have hf : getFile (saveSettings B [("nickname", Json.str "Team B")] fs)
      (normalizePath (B ++ PATH_SEPARATOR ++ VAULT_LOCAL_SETTINGS_FILE_PATH)) =
      some (nickObjString "Team B") := saveSettings_getFile B _ fs
  have ht : jsTrim "Team B" = "Team B" := by decide
  simp [onVaultSwitcherLookup, existsSync, readFileSync, hf, jsonParse_nickObj,
    jsMember, jsGet, jsTruthy, ht]


/-- Claim C5 (amended): the sibling lookup applies the stored nickname
exactly as stored (not trimmed) when the record file exists, parses as a
JSON object, and holds a nickname string that is non-empty after
trimming; it leaves the menu item alone when the file is missing or the
nickname is absent or blank; and it raises when the file exists but its
content does not parse. -/
theorem claim5_lookup_behaviour :
    (∀ (fs : FS) (p : String),
      getFile fs (normalizePath (p ++ PATH_SEPARATOR ++ VAULT_LOCAL_SETTINGS_FILE_PATH)) =
        none →
      onVaultSwitcherLookup fs p = LookupOutcome.skipped) ∧
    (∀ (fs : FS) (p c : String),
      getFile fs (normalizePath (p ++ PATH_SEPARATOR ++ VAULT_LOCAL_SETTINGS_FILE_PATH)) =
        some c →
      jsonParse c = none →
      onVaultSwitcherLookup fs p = LookupOutcome.raised "SyntaxError: JSON.parse") ∧
    (∀ (fs : FS) (p c : String) (kvs : List (String × Json)) (s : String),
      getFile fs (normalizePath (p ++ PATH_SEPARATOR ++ VAULT_LOCAL_SETTINGS_FILE_PATH)) =
        some c →
      jsonParse c = some (Json.obj kvs) →
      jsGet kvs "nickname" = some (Json.str s) →
      jsTrim s ≠ "" →
      onVaultSwitcherLookup fs p = LookupOutcome.applied s) ∧
    (∀ (fs : FS) (p c : String) (kvs : List (String × Json)),
      getFile fs (normalizePath (p ++ PATH_SEPARATOR ++ VAULT_LOCAL_SETTINGS_FILE_PATH)) =
        some c →
      jsonParse c = some (Json.obj kvs) →
      (jsGet kvs "nickname" = none ∨
        ∃ s, jsGet kvs "nickname" = some (Json.str s) ∧ jsTrim s = "") →
      onVaultSwitcherLookup fs p = LookupOutcome.skipped) := by
  refine ⟨fun fs p h => ?_, fun fs p c h hp => ?_, fun fs p c kvs s h hp hn ht => ?_,
    fun fs p c kvs h hp hcase => ?_⟩
  · simp [onVaultSwitcherLookup, existsSync, h]
  · simp [onVaultSwitcherLookup, existsSync, readFileSync, h, hp]
  · have hs : s ≠ "" := fun hs => ht (by rw [hs]; rfl)
    simp [onVaultSwitcherLookup, existsSync, readFileSync, h, hp, jsMember, hn,
      jsTruthy, hs, ht]
  · rcases hcase with hn | ⟨s, hn, htr⟩
    · simp [onVaultSwitcherLookup, existsSync, readFileSync, h, hp, jsMember, hn, jsTruthy]
    · by_cases hs : s = ""
      · subst hs
        simp [onVaultSwitcherLookup, existsSync, readFileSync, h, hp, jsMember, hn, jsTruthy]
      · simp [onVaultSwitcherLookup, existsSync, readFileSync, h, hp, jsMember, hn,
          jsTruthy, hs, htr]

/-- Claim C5 counterexample: a stored nickname with surrounding spaces
is applied exactly as stored, not trimmed as the claim states. -/
theorem claim5_counterexample :
    onVaultSwitcherLookup
        [("/v/.vault-nickname", "\x7b\"nickname\":\" X \"\x7d")] "/v" =
      LookupOutcome.applied " X " ∧
    jsTrim " X " = "X" ∧
    LookupOutcome.applied " X " ≠ LookupOutcome.applied "X" := by
  refine ⟨rfl, by decide, by decide⟩

/-- Claim C5 witness exercising every case of the amended theorem at
concrete inputs. -/
theorem claim5_witness :
    onVaultSwitcherLookup [] "/v" = LookupOutcome.skipped ∧
    onVaultSwitcherLookup [("/v/.vault-nickname", "oops")] "/v" =
      LookupOutcome.raised "SyntaxError: JSON.parse" ∧
    onVaultSwitcherLookup [("/v/.vault-nickname", "\x7b\"nickname\":\" Y \"\x7d")] "/v" =
      LookupOutcome.applied " Y " ∧
    onVaultSwitcherLookup [("/v/.vault-nickname", "\x7b\"nickname\":\"  \"\x7d")] "/v" =
      LookupOutcome.skipped :=
  ⟨claim5_lookup_behaviour.1 [] "/v" rfl,
   claim5_lookup_behaviour.2.1 [("/v/.vault-nickname", "oops")] "/v" "oops" rfl rfl,
   claim5_lookup_behaviour.2.2.1 [("/v/.vault-nickname", "\x7b\"nickname\":\" Y \"\x7d")]
     "/v" "\x7b\"nickname\":\" Y \"\x7d" [("nickname", Json.str " Y ")] " Y " rfl rfl rfl
     (by decide),
   claim5_lookup_behaviour.2.2.2 [("/v/.vault-nickname", "\x7b\"nickname\":\"  \"\x7d")]
     "/v" "\x7b\"nickname\":\"  \"\x7d" [("nickname", Json.str "  ")] rfl rfl
     (Or.inr ⟨"  ", rfl, by decide⟩)⟩


/-- Claim C8: a record file holding a valid JSON object with keys other
than nickname loads without failing, the unknown keys are carried into
the merged record by the shallow merge over the default, and a
subsequent save serializes that merged record back to the file. -/
theorem claim8_unknown_keys_preserved (bp : String) (fs fs2 : FS) (c : String)
    (kvs : List (String × Json))
    (h1 : getFile fs (getSettingsFilePath bp) = some c)
    (h2 : jsonParse c = some (Json.obj kvs)) :
    ∃ merged, loadSettings bp fs = Except.ok merged ∧
      (∀ (k : String) (v : Json), k ≠ "nickname" → jsGet kvs k = some v →
        jsGet merged k = some v) ∧
      getFile (saveSettings bp merged fs2) (getSettingsFilePath bp) =
        some (stringify (Json.obj merged)) := by
  have hne : c ≠ "" := by
    intro hc; subst hc
    exact Option.noConfusion ((rfl : jsonParse "" = none) ▸ h2)
  refine ⟨objectAssign (personalizedDefaultSettings bp) kvs, ?_, ?_, ?_⟩
  · rw [loadSettings_of_file bp fs c h1 hne, h2]
    rfl
  · intro k v hk hv
    rw [jsGet_objectAssign _ _ _ (jsonParse_obj_nodupKeys c kvs h2), hv]
  · exact saveSettings_getFile bp _ fs2

/-- Claim C8 witness: a record file with an extra color field loads, the
field survives the merge, and a save writes it back. -/
theorem claim8_witness :
    ∃ merged,
      loadSettings "/a/b"
        [("/a/b/.vault-nickname", "\x7b\"nickname\":\"N\",\"color\":\"blue\"\x7d")] =
        Except.ok merged ∧
      (∀ (k : String) (v : Json), k ≠ "nickname" →
        jsGet [("nickname", Json.str "N"), ("color", Json.str "blue")] k = some v →
        jsGet merged k = some v) ∧
      getFile (saveSettings "/a/b" merged []) (getSettingsFilePath "/a/b") =
        some (stringify (Json.obj merged)) :=
  claim8_unknown_keys_preserved "/a/b"
    [("/a/b/.vault-nickname", "\x7b\"nickname\":\"N\",\"color\":\"blue\"\x7d")] []
    "\x7b\"nickname\":\"N\",\"color\":\"blue\"\x7d"
    [("nickname", Json.str "N"), ("color", Json.str "blue")] rfl rfl

end VaultNickname
